import Mathlib

/-!
Verification of `fetch_blfs_sections.py`.

The script fetches BLFS chapter index pages, follows per-package links and
prints each package page's title and preformatted user-input command blocks.
We embed it shallowly: HTML documents are parse trees, the network is a pure
map from URLs to responses, and a run is a list of observable events
(HTTP GET requests and `print` calls) together with an optional uncaught
error and an exit status.
-/

namespace BlfsFetch

/-- The ASCII whitespace characters removed by Python `str.strip()`. -/
def isPySpace (c : Char) : Bool :=
  c = ' ' || c = '\t' || c = '\n' || c = '\r' || c = '\x0b' || c = '\x0c'

/-- Drop leading and trailing whitespace characters from a character list. -/
def stripChars (cs : List Char) : List Char :=
  ((cs.dropWhile isPySpace).reverse.dropWhile isPySpace).reverse

/-- Python `str.strip()` with no argument: remove leading and trailing
whitespace, leaving the interior untouched. -/
def pyStrip (s : String) : String :=
  ⟨stripChars s.data⟩

/-- A node of a parsed HTML document.  Only the attributes the script ever
queries are kept: the tag name, the `class` attribute (as a list of class
names) and the `href` attribute. -/
inductive Node where
  | text (s : String)
  | elem (tag : String) (classes : List String) (href : Option String)
      (children : List Node)
deriving Repr

mutual

/-- BeautifulSoup `get_text()`: the concatenation of all descendant text
nodes in document order. -/
def Node.getText : Node → String
  | .text s => s
  | .elem _ _ _ cs => Node.getTextList cs

/-- The `get_text()` concatenation over a forest of sibling nodes. -/
def Node.getTextList : List Node → String
  | [] => ""
  | n :: ns => Node.getText n ++ Node.getTextList ns

end

mutual

/-- BeautifulSoup `get_text(strip=True)` with the default empty separator:
each descendant string is stripped individually and the results are
concatenated in document order. -/
def Node.getTextStrip : Node → String
  | .text s => pyStrip s
  | .elem _ _ _ cs => Node.getTextStripList cs

/-- The `get_text(strip=True)` concatenation over a forest of sibling
nodes. -/
def Node.getTextStripList : List Node → String
  | [] => ""
  | n :: ns => Node.getTextStrip n ++ Node.getTextStripList ns

end

mutual

/-- All element nodes of a tree in document (preorder depth-first) order,
the traversal order used by BeautifulSoup `find` and `select`. -/
def Node.elems : Node → List Node
  | .text _ => []
  | .elem t c h cs => .elem t c h cs :: Node.elemsList cs

/-- Document-order element listing of a forest of sibling nodes. -/
def Node.elemsList : List Node → List Node
  | [] => []
  | n :: ns => Node.elems n ++ Node.elemsList ns

end

/-- Whether a node is a level-1 heading element. -/
def isH1 : Node → Bool
  | .elem t _ _ _ => t = "h1"
  | .text _ => false

/-- Embeds `soup.find("h1")`: the first `h1` element in document order,
if any. -/
def findH1 (doc : List Node) : Option Node :=
  (Node.elemsList doc).find? isH1

/-- Whether a node matches the CSS selector `pre.userinput`. -/
def isPreUserinput : Node → Bool
  | .elem t cls _ _ => t = "pre" && cls.contains "userinput"
  | .text _ => false

/-- Embeds `soup.select("pre.userinput")`: all matching elements in document
order. -/
def selectPreUserinput (doc : List Node) : List Node :=
  (Node.elemsList doc).filter isPreUserinput

/-- Whether the string `s` ends with the string `p` (the CSS `$=` attribute
test), computed on the character lists. -/
def strEndsWith (s p : String) : Bool :=
  p.data.isSuffixOf s.data

/-- Whether a node matches the CSS selector `a[href$=".html"]`: an anchor
element carrying an `href` attribute that ends in `".html"`. -/
def isAnchorHtml : Node → Bool
  | .elem t _ (some h) _ => t = "a" && strEndsWith h ".html"
  | .elem _ _ none _ => false
  | .text _ => false

/-- The `href` attribute of a node, as returned by `a.get("href")`. -/
def Node.hrefOf : Node → Option String
  | .elem _ _ h _ => h
  | .text _ => none

/-- The hrefs of the elements matched by `soup.select('a[href$=".html"]')`,
in document order.  Every matched anchor necessarily carries an `href`
attribute, so the `filterMap` drops nothing. -/
def chapterHrefs (doc : List Node) : List String :=
  ((Node.elemsList doc).filter isAnchorHtml).filterMap Node.hrefOf

/-- An HTTP response as the script observes it: the final status code and
the parsed body. -/
structure Response where
  status : Nat
  doc : List Node

/-- The network: a pure map from URLs to responses. -/
def World := String → Response

/-- Observable events of a run: an HTTP GET with its timeout argument, and
a `print(s)` call (Python `print` appends one newline to its argument). -/
inductive Event where
  | get (url : String) (timeout : Nat)
  | out (s : String)
deriving Repr, DecidableEq

/-- Uncaught Python exceptions the script can produce:
`requests.HTTPError` from `raise_for_status`, and the `AttributeError`
raised by calling `get_text` on the `None` returned by a failed `find`. -/
inductive Err where
  | httpError (status : Nat) (url : String)
  | attributeError
deriving Repr, DecidableEq

/-- The condition under which `Response.raise_for_status` of the requests
library raises `HTTPError`: the status code is a 4xx client error or a 5xx
server error. -/
def raisesForStatus (status : Nat) : Bool :=
  400 ≤ status && status < 600

/-- The constant `BASE_URL` from the script. -/
def BASE_URL : String :=
  "https://www.linuxfromscratch.org/blfs/view/stable"

/-- The usage message printed when no chapter argument is given. -/
def USAGE : String :=
  "Usage: fetch_blfs_sections.py CHAPTER [CHAPTER ...]"

/-- The chapter index URL built by `fetch_chapter`. -/
def indexUrl (ch : String) : String :=
  BASE_URL ++ "/" ++ ch ++ "/"

/-- The package page URL built by `fetch_chapter` for a discovered href. -/
def pkgUrl (ch href : String) : String :=
  BASE_URL ++ "/" ++ ch ++ "/" ++ href

/-- Embeds `fetch_package(url)`: GET the page, raise on a 4xx/5xx status,
extract
the first `h1` as the title (an `AttributeError` if there is none), print
the title line and then every `pre.userinput` block's stripped text, each
followed by a blank `print()`.  Returns the event trace and the uncaught
exception, if any. -/
def fetch_package (w : World) (url : String) : List Event × Option Err :=
  let r := w url
  if raisesForStatus r.status then
    ([.get url 30], some (.httpError r.status url))
  else
    match findH1 r.doc with
    | none => ([.get url 30], some .attributeError)
    | some h =>
      ([.get url 30, .out ("# " ++ Node.getTextStrip h ++ "\n")] ++
        (selectPreUserinput r.doc).flatMap
          (fun p => [.out (pyStrip (Node.getText p)), .out ""]),
       none)

/-- The body of `fetch_chapter`'s loop over the selected hrefs: skip the
literal `"index.html"`, otherwise run `fetch_package` on the joined URL;
an uncaught exception aborts the remaining iterations. -/
def fetchPages (w : World) (ch : String) : List String → List Event × Option Err
  | [] => ([], none)
  | href :: rest =>
    if href = "index.html" then
      fetchPages w ch rest
    else
      match fetch_package w (pkgUrl ch href) with
      | (tr, some e) => (tr, some e)
      | (tr, none) =>
        (tr ++ (fetchPages w ch rest).1, (fetchPages w ch rest).2)

/-- Embeds `fetch_chapter(ch)`: GET the chapter index, raise on a 4xx/5xx
status,
then process each anchor whose href ends in `".html"`. -/
def fetch_chapter (w : World) (ch : String) : List Event × Option Err :=
  let r := w (indexUrl ch)
  if raisesForStatus r.status then
    ([.get (indexUrl ch) 30], some (.httpError r.status (indexUrl ch)))
  else
    (.get (indexUrl ch) 30 :: (fetchPages w ch (chapterHrefs r.doc)).1,
     (fetchPages w ch (chapterHrefs r.doc)).2)

/-- The loop of the entry point: run `fetch_chapter` once per argument, in
order; an uncaught exception aborts the remaining chapters. -/
def runChapters (w : World) : List String → List Event × Option Err
  | [] => ([], none)
  | ch :: rest =>
    match fetch_chapter w ch with
    | (tr, some e) => (tr, some e)
    | (tr, none) =>
      (tr ++ (runChapters w rest).1, (runChapters w rest).2)

/-- The `__main__` block: with no chapter arguments print the usage message
and exit with status 1; otherwise process the chapters in order, exiting 0
on success and 1 (the interpreter's exit status for an uncaught exception)
on failure.  `args` is `sys.argv[1:]`. -/
def main (w : World) (args : List String) : List Event × Nat :=
  match args with
  | [] => ([.out USAGE], 1)
  | a :: rest =>
    ((runChapters w (a :: rest)).1,
     match (runChapters w (a :: rest)).2 with
     | some _ => 1
     | none => 0)

/-- The text written to standard output by a trace: each `print(s)` call
emits its argument followed by one newline. -/
def render : List Event → String
  | [] => ""
  | .get _ _ :: tr => render tr
  | .out s :: tr => s ++ "\n" ++ render tr

/-- The URLs of the GET requests of a trace, in order. -/
def getsOf (tr : List Event) : List String :=
  tr.filterMap (fun e => match e with | .get u _ => some u | .out _ => none)

/-! ### Basic lemmas about the embedding -/

theorem getsOf_append (a b : List Event) :
    getsOf (a ++ b) = getsOf a ++ getsOf b := by
  simp [getsOf]

theorem getsOf_blocks (ps : List Node) (f : Node → String) :
    getsOf (ps.flatMap (fun p => [Event.out (f p), Event.out ""])) = [] := by
  induction ps with
  | nil => simp [getsOf]
  | cons p ps ih => simpa [getsOf] using ih

/-- On a 4xx/5xx response, `fetch_package` performs the GET and raises
`HTTPError`, printing nothing. -/
theorem fetch_package_raise (w : World) (url : String)
    (h : raisesForStatus (w url).status = true) :
    fetch_package w url =
      ([.get url 30], some (.httpError (w url).status url)) := by
  simp [fetch_package, h]

/-- On a success status with no `h1` element, `fetch_package` raises
`AttributeError` at the title extraction, printing nothing. -/
theorem fetch_package_noH1 (w : World) (url : String)
    (hst : raisesForStatus (w url).status = false)
    (hh : findH1 (w url).doc = none) :
    fetch_package w url = ([.get url 30], some .attributeError) := by
  simp [fetch_package, hst, hh]

/-- On a success status with a first `h1` element `h`, `fetch_package`
prints the title line and the stripped user-input blocks in document
order. -/
theorem fetch_package_ok (w : World) (url : String) (h : Node)
    (hst : raisesForStatus (w url).status = false)
    (hh : findH1 (w url).doc = some h) :
    fetch_package w url =
      ([.get url 30, .out ("# " ++ Node.getTextStrip h ++ "\n")] ++
        (selectPreUserinput (w url).doc).flatMap
          (fun p => [.out (pyStrip (Node.getText p)), .out ""]),
       none) := by
  simp [fetch_package, hst, hh]

/-- Whatever happens, `fetch_package` issues exactly one GET request, to
its argument URL. -/
theorem fetch_package_gets (w : World) (url : String) :
    getsOf (fetch_package w url).1 = [url] := by
  simp only [fetch_package]
  split
  · simp [getsOf]
  · split
    · simp [getsOf]
    · rw [getsOf_append, getsOf_blocks]
      simp [getsOf]

/-- When no page fetch in the loop fails, the GET requests of a chapter's
page loop are exactly the non-`index.html` hrefs joined to package URLs,
in order. -/
theorem fetchPages_gets (w : World) (ch : String) (hs : List String)
    (hnone : (fetchPages w ch hs).2 = none) :
    getsOf (fetchPages w ch hs).1 =
      (hs.filter (fun h => h ≠ "index.html")).map (pkgUrl ch) := by
  induction hs with
  | nil => simp [fetchPages, getsOf]
  | cons href rest ih =>
    by_cases hidx : href = "index.html"
    · subst hidx
      simp only [fetchPages, if_pos rfl] at hnone ⊢
      simpa using ih hnone
    · rcases hfp : fetch_package w (pkgUrl ch href) with ⟨tr, e⟩
      cases e with
      | some err =>
        simp [fetchPages, hidx, hfp] at hnone
      | none =>
        simp only [fetchPages, if_neg hidx, hfp] at hnone ⊢
        have htr : getsOf tr = [pkgUrl ch href] := by
          have := fetch_package_gets w (pkgUrl ch href)
          rwa [hfp] at this
        rw [getsOf_append, htr, ih hnone]
        simp [hidx]

/-- On a 4xx/5xx index response, `fetch_chapter` performs the index GET
and raises `HTTPError`, fetching no package page. -/
theorem fetch_chapter_raise (w : World) (ch : String)
    (h : raisesForStatus (w (indexUrl ch)).status = true) :
    fetch_chapter w ch =
      ([.get (indexUrl ch) 30],
       some (.httpError (w (indexUrl ch)).status (indexUrl ch))) := by
  simp [fetch_chapter, h]

/-- On a success index response, `fetch_chapter` performs the index GET
and then runs the page loop over the selected hrefs. -/
theorem fetch_chapter_ok (w : World) (ch : String)
    (hst : raisesForStatus (w (indexUrl ch)).status = false) :
    fetch_chapter w ch =
      (.get (indexUrl ch) 30 ::
        (fetchPages w ch (chapterHrefs (w (indexUrl ch)).doc)).1,
       (fetchPages w ch (chapterHrefs (w (indexUrl ch)).doc)).2) := by
  simp [fetch_chapter, hst]

/-- A chapter run that raises no exception got a non-4xx/5xx index
response. -/
theorem fetch_chapter_none_status (w : World) (ch : String)
    (hok : (fetch_chapter w ch).2 = none) :
    raisesForStatus (w (indexUrl ch)).status = false := by
  by_cases h : raisesForStatus (w (indexUrl ch)).status = true
  · rw [fetch_chapter_raise w ch h] at hok
    simp at hok
  · simpa using h

theorem getsOf_cons_get (u : String) (t : Nat) (tr : List Event) :
    getsOf (.get u t :: tr) = u :: getsOf tr := by
  simp [getsOf]

theorem render_append (a b : List Event) :
    render (a ++ b) = render a ++ render b := by
  induction a with
  | nil => simp [render]
  | cons e tr ih => cases e <;> simp [render, ih, String.append_assoc]

theorem join_cons (s : String) (l : List String) :
    String.join (s :: l) = s ++ String.join l := by
  simp [String.join_eq]; rfl

/-- Rendering the per-block output of `fetch_package`: each block prints
its text and then a blank line. -/
theorem render_blocks (ps : List Node) (f : Node → String) :
    render (ps.flatMap (fun p => [Event.out (f p), Event.out ""])) =
      String.join (ps.map (fun p => f p ++ "\n" ++ "\n")) := by
  induction ps with
  | nil => rfl
  | cons p ps ih =>
    rw [List.flatMap_cons, render_append, ih, List.map_cons, join_cons]
    simp only [render, String.append_empty, String.empty_append,
      String.append_assoc]

/-! ### Concrete pages and networks used to instantiate the theorems -/

/-- A chapter index page linking `a.html`, `b.html` and `index.html`. -/
def exIndexDoc : List Node :=
  [.elem "a" [] (some "a.html") [.text "a"],
   .elem "a" [] (some "b.html") [.text "b"],
   .elem "a" [] (some "index.html") [.text "self"]]

/-- A package page with title `Foo-1.0` and two user-input blocks. -/
def exPkgDoc : List Node :=
  [.elem "h1" [] none [.text "Foo-1.0"],
   .elem "pre" ["userinput"] none [.text "make"],
   .elem "pre" ["userinput"] none [.text "make install"]]

/-- A network where chapter `ch`'s index lists the three links above and
every other URL serves the `Foo-1.0` package page, always with status
200. -/
def exWorld : World :=
  fun url => if url = indexUrl "ch" then ⟨200, exIndexDoc⟩ else ⟨200, exPkgDoc⟩

/-- A network whose every page has a body with no `h1` element. -/
def noTitleWorld : World :=
  fun _ => ⟨200, [.elem "p" [] none [.text "no heading"]]⟩

/-- A network whose every page has a title but no user-input block. -/
def titleOnlyWorld : World :=
  fun _ => ⟨200, [.elem "h1" [] none [.text "Bar-2.0"]]⟩

/-! ### The claims -/

/-- C1: for every chapter run that raises no exception, the Chapter
Walker's GET requests are exactly the index URL followed, in the order the
anchors appear in the index page's markup, by the package URLs built from
the hrefs that end in `".html"` (the CSS selector) and are not the literal
`"index.html"` (the skip); no other page is fetched. -/
theorem C1_chapter_link_selection (w : World) (ch : String)
    (hok : (fetch_chapter w ch).2 = none) :
    getsOf (fetch_chapter w ch).1 =
      indexUrl ch ::
        ((chapterHrefs (w (indexUrl ch)).doc).filter
          (fun h => h ≠ "index.html")).map (pkgUrl ch) := by
  have hst := fetch_chapter_none_status w ch hok
  have hok' :
      (fetchPages w ch (chapterHrefs (w (indexUrl ch)).doc)).2 = none := by
    rw [fetch_chapter_ok w ch hst] at hok
    exact hok
  rw [fetch_chapter_ok w ch hst, getsOf_cons_get,
    fetchPages_gets w ch _ hok']

/-- C1, instantiated: an index linking `a.html`, `b.html`, `index.html`
yields GETs for the index, then `a.html`, then `b.html`, and never
`index.html`. -/
theorem C1_chapter_link_selection_witness :
    (fetch_chapter exWorld "ch").2 = none ∧
    getsOf (fetch_chapter exWorld "ch").1 =
      [indexUrl "ch", pkgUrl "ch" "a.html", pkgUrl "ch" "b.html"] :=
  ⟨by decide, by
    rw [C1_chapter_link_selection exWorld "ch" (by decide)]; decide⟩

/-- C2: for every package page fetched with a success status whose first
`h1` is `h`, the run prints exactly the title line `# <title>` (then a
blank line) followed by each `pre.userinput` block's stripped text, each
followed by a blank line, in document order, one printed block per
preformatted node. -/
theorem C2_package_page_output (w : World) (url : String) (h : Node)
    (hst : raisesForStatus (w url).status = false)
    (hh : findH1 (w url).doc = some h) :
    fetch_package w url =
      ([.get url 30, .out ("# " ++ Node.getTextStrip h ++ "\n")] ++
        (selectPreUserinput (w url).doc).flatMap
          (fun p => [.out (pyStrip (Node.getText p)), .out ""]),
       none) ∧
    render (fetch_package w url).1 =
      "# " ++ Node.getTextStrip h ++ "\n" ++ "\n" ++
        String.join ((selectPreUserinput (w url).doc).map
          (fun p => pyStrip (Node.getText p) ++ "\n" ++ "\n")) := by
  refine ⟨fetch_package_ok w url h hst hh, ?_⟩
  rw [fetch_package_ok w url h hst hh]
  show render
      ((Event.get url 30 :: [.out ("# " ++ Node.getTextStrip h ++ "\n")]) ++
        (selectPreUserinput (w url).doc).flatMap
          (fun p => [.out (pyStrip (Node.getText p)), .out ""])) = _
  rw [render_append, render_blocks]
  simp only [render, String.append_empty, String.empty_append,
    String.append_assoc]

/-- C2, instantiated: a page with title `Foo-1.0` and blocks `make` and
`make install` prints exactly `# Foo-1.0`, blank, `make`, blank,
`make install`, blank. -/
theorem C2_package_page_output_witness :
    raisesForStatus (exWorld "u").status = false ∧
    findH1 (exWorld "u").doc = some (.elem "h1" [] none [.text "Foo-1.0"]) ∧
    render (fetch_package exWorld "u").1 =
      "# Foo-1.0\n\nmake\n\nmake install\n\n" :=
  ⟨by decide, rfl, by
    rw [(C2_package_page_output exWorld "u"
      (.elem "h1" [] none [.text "Foo-1.0"]) (by decide) rfl).2]
    decide⟩

/-- C3: with zero chapter arguments, the program prints exactly the usage
message, exits with status 1 and performs no GET request. -/
theorem C3_usage_no_args (w : World) :
    main w [] = ([.out USAGE], 1) ∧ getsOf (main w []).1 = [] :=
  ⟨rfl, rfl⟩

/-- C8: a package page with a success status but no `h1` element makes
`fetch_package` raise `AttributeError` at the title extraction, with
nothing printed for that page. -/
theorem C8_missing_title (w : World) (url : String)
    (hst : raisesForStatus (w url).status = false)
    (hh : findH1 (w url).doc = none) :
    fetch_package w url = ([.get url 30], some .attributeError) ∧
    render (fetch_package w url).1 = "" := by
  refine ⟨fetch_package_noH1 w url hst hh, ?_⟩
  rw [fetch_package_noH1 w url hst hh]
  rfl

/-- C8, instantiated on a page whose body is a paragraph with no
heading. -/
theorem C8_missing_title_witness :
    raisesForStatus (noTitleWorld "u").status = false ∧
    findH1 (noTitleWorld "u").doc = none ∧
    fetch_package noTitleWorld "u" = ([.get "u" 30], some .attributeError) :=
  ⟨by decide, rfl,
    (C8_missing_title noTitleWorld "u" (by decide) rfl).1⟩

/-- C9: a package page with a title but zero `pre.userinput` blocks is
processed without error, printing exactly the title line and one blank
line. -/
theorem C9_title_only (w : World) (url : String) (h : Node)
    (hst : raisesForStatus (w url).status = false)
    (hh : findH1 (w url).doc = some h)
    (hz : selectPreUserinput (w url).doc = []) :
    fetch_package w url =
      ([.get url 30, .out ("# " ++ Node.getTextStrip h ++ "\n")], none) ∧
    render (fetch_package w url).1 =
      "# " ++ Node.getTextStrip h ++ "\n" ++ "\n" := by
  have hfp := fetch_package_ok w url h hst hh
  rw [hz] at hfp
  simp only [List.flatMap_nil, List.append_nil] at hfp
  refine ⟨hfp, ?_⟩
  rw [hfp]
  simp only [render, String.append_empty, String.empty_append,
    String.append_assoc]

/-- C9, instantiated on a page whose body is just the heading
`Bar-2.0`. -/
theorem C9_title_only_witness :
    raisesForStatus (titleOnlyWorld "u").status = false ∧
    findH1 (titleOnlyWorld "u").doc =
      some (.elem "h1" [] none [.text "Bar-2.0"]) ∧
    selectPreUserinput (titleOnlyWorld "u").doc = [] ∧
    render (fetch_package titleOnlyWorld "u").1 = "# Bar-2.0\n\n" :=
  ⟨by decide, rfl, rfl, by
    rw [(C9_title_only titleOnlyWorld "u"
      (.elem "h1" [] none [.text "Bar-2.0"]) (by decide) rfl rfl).2]
    decide⟩

/-! ### Properties of `pyStrip` -/

/-- Splitting off the whitespace that `stripChars` removes: the input is
the removed whitespace prefix, the stripped core kept verbatim, and the
removed whitespace tail. -/
theorem stripChars_decomp (cs : List Char) :
    ∃ l r, cs = l ++ stripChars cs ++ r ∧
      l.all isPySpace ∧ r.all isPySpace := by
  refine ⟨cs.takeWhile isPySpace,
    ((cs.dropWhile isPySpace).reverse.takeWhile isPySpace).reverse,
    ?_, ?_, ?_⟩
  · conv_lhs =>
      rw [← List.takeWhile_append_dropWhile (p := isPySpace) (l := cs)]
    rw [List.append_assoc]
    congr 1
    conv_lhs =>
      rw [← List.reverse_reverse (cs.dropWhile isPySpace),
        ← List.takeWhile_append_dropWhile (p := isPySpace)
          (l := (cs.dropWhile isPySpace).reverse)]
    rw [List.reverse_append]
    rfl
  · rw [List.all_eq_true]
    intro x hx
    exact List.mem_takeWhile_imp hx
  · rw [List.all_reverse, List.all_eq_true]
    intro x hx
    exact List.mem_takeWhile_imp hx

/-- The stripped text does not end in a whitespace character. -/
theorem stripChars_getLast (cs : List Char) (c : Char)
    (h : (stripChars cs).getLast? = some c) : isPySpace c = false := by
  unfold stripChars at h
  rw [List.getLast?_reverse] at h
  have h3 := List.head?_dropWhile_not isPySpace
    ((cs.dropWhile isPySpace).reverse)
  rw [h] at h3
  exact h3

/-- The stripped text does not start with a whitespace character. -/
theorem stripChars_head (cs : List Char) (c : Char)
    (h : (stripChars cs).head? = some c) : isPySpace c = false := by
  unfold stripChars at h
  rw [List.head?_reverse] at h
  obtain ⟨t, ht⟩ :=
    List.dropWhile_suffix (l := (cs.dropWhile isPySpace).reverse)
      (p := isPySpace)
  have h2 : (cs.dropWhile isPySpace).reverse.getLast? = some c := by
    rw [← ht, List.getLast?_append, h]
    rfl
  rw [List.getLast?_reverse] at h2
  have h3 := List.head?_dropWhile_not isPySpace cs
  rw [h2] at h3
  exact h3

/-- C5: every preformatted user-input block on a successfully processed
package page is printed as its text content with leading and trailing
whitespace removed — the printed text is a verbatim contiguous segment of
the block's text whose removed margins are all whitespace, and it neither
starts nor ends with a whitespace character. -/
theorem C5_block_strip (w : World) (url : String) (h p : Node)
    (hst : raisesForStatus (w url).status = false)
    (hh : findH1 (w url).doc = some h)
    (hp : p ∈ selectPreUserinput (w url).doc) :
    Event.out (pyStrip (Node.getText p)) ∈ (fetch_package w url).1 ∧
    (∃ l r, (Node.getText p).data =
        l ++ (pyStrip (Node.getText p)).data ++ r ∧
      l.all isPySpace ∧ r.all isPySpace) ∧
    (∀ c, (pyStrip (Node.getText p)).data.head? = some c →
      isPySpace c = false) ∧
    (∀ c, (pyStrip (Node.getText p)).data.getLast? = some c →
      isPySpace c = false) := by
  refine ⟨?_, ?_, ?_, ?_⟩
  · rw [fetch_package_ok w url h hst hh]
    refine List.mem_append.mpr (Or.inr ?_)
    exact List.mem_flatMap.mpr ⟨p, hp, by simp⟩
  · exact stripChars_decomp (Node.getText p).data
  · intro c hc
    exact stripChars_head _ c hc
  · intro c hc
    exact stripChars_getLast _ c hc

/-- A page with one user-input block whose text carries leading and
trailing whitespace around internal double spacing. -/
def stripPre : Node :=
  .elem "pre" ["userinput"] none [.text "  make  install\n\n"]

/-- A network serving a page with the block above on every URL. -/
def stripWorld : World :=
  fun _ => ⟨200, [.elem "h1" [] none [.text "T"], stripPre]⟩

/-- C5, instantiated: the block text `"  make  install\n\n"` is printed as
`"make  install"` — margins gone, internal double space intact. -/
theorem C5_block_strip_witness :
    Event.out (pyStrip (Node.getText stripPre)) ∈
      (fetch_package stripWorld "u").1 ∧
    pyStrip (Node.getText stripPre) = "make  install" :=
  ⟨(C5_block_strip stripWorld "u" (.elem "h1" [] none [.text "T"]) stripPre
      (by decide) rfl (List.mem_singleton_self _)).1,
    by decide⟩

/-! ### Which URLs get fetched, and with which timeout -/

/-- Every href selected by `a[href$=".html"]` ends in `".html"`. -/
theorem chapterHrefs_endsWith (doc : List Node) (h : String)
    (hm : h ∈ chapterHrefs doc) : strEndsWith h ".html" = true := by
  simp only [chapterHrefs, List.mem_filterMap] at hm
  obtain ⟨n, hn, hhref⟩ := hm
  rw [List.mem_filter] at hn
  obtain ⟨-, hsel⟩ := hn
  cases n with
  | text s => simp [isAnchorHtml] at hsel
  | elem t cls href cs =>
    cases href with
    | none => simp [isAnchorHtml] at hsel
    | some h₂ =>
      simp only [isAnchorHtml, Bool.and_eq_true, decide_eq_true_eq] at hsel
      simp only [Node.hrefOf, Option.some.injEq] at hhref
      rw [← hhref]
      exact hsel.2

/-- Any GET event in a `fetch_package` trace targets its URL with
timeout 30. -/
theorem fetch_package_mem_get (w : World) (url u : String) (t : Nat)
    (hm : Event.get u t ∈ (fetch_package w url).1) : u = url ∧ t = 30 := by
  simp only [fetch_package] at hm
  split at hm
  · simp only [List.mem_singleton, Event.get.injEq] at hm
    exact hm
  · split at hm
    · simp only [List.mem_singleton, Event.get.injEq] at hm
      exact hm
    · simp only [List.mem_append, List.mem_cons, Event.get.injEq,
        List.mem_flatMap, List.mem_singleton, List.not_mem_nil,
        or_false, reduceCtorEq] at hm
      rcases hm with hm | hm
      · exact hm
      · obtain ⟨q, -, hq⟩ := hm
        exact absurd hq (by simp)

/-- Any GET event in the page loop's trace targets a package URL built
from a non-`index.html` href of the list, with timeout 30. -/
theorem fetchPages_mem_get (w : World) (ch : String) (hs : List String)
    (u : String) (t : Nat) (hm : Event.get u t ∈ (fetchPages w ch hs).1) :
    t = 30 ∧ ∃ h ∈ hs, h ≠ "index.html" ∧ u = pkgUrl ch h := by
  induction hs with
  | nil => simp [fetchPages, getsOf] at hm
  | cons href rest ih =>
    by_cases hidx : href = "index.html"
    · subst hidx
      simp only [fetchPages, if_pos rfl] at hm
      obtain ⟨ht, h₂, hmem, hne, hu⟩ := ih hm
      exact ⟨ht, h₂, List.mem_cons_of_mem _ hmem, hne, hu⟩
    · rcases hfp : fetch_package w (pkgUrl ch href) with ⟨tr, e⟩
      have htr : ∀ t₂, Event.get u t₂ ∈ tr → u = pkgUrl ch href ∧ t₂ = 30 := by
        intro t₂ hmem
        exact fetch_package_mem_get w (pkgUrl ch href) u t₂ (by rw [hfp]; exact hmem)
      cases e with
      | some err =>
        simp only [fetchPages, if_neg hidx, hfp] at hm
        obtain ⟨hu, ht⟩ := htr t hm
        exact ⟨ht, href, List.mem_cons_self _ _, hidx, hu⟩
      | none =>
        simp only [fetchPages, if_neg hidx, hfp, List.mem_append] at hm
        rcases hm with hm | hm
        · obtain ⟨hu, ht⟩ := htr t hm
          exact ⟨ht, href, List.mem_cons_self _ _, hidx, hu⟩
        · obtain ⟨ht, h₂, hmem, hne, hu⟩ := ih hm
          exact ⟨ht, h₂, List.mem_cons_of_mem _ hmem, hne, hu⟩

/-- Any GET event in a `fetch_chapter` trace targets the chapter's index
URL or a package URL built from an href ending in `".html"` and different
from `"index.html"`, with timeout 30. -/
theorem fetch_chapter_mem_get (w : World) (ch u : String) (t : Nat)
    (hm : Event.get u t ∈ (fetch_chapter w ch).1) :
    t = 30 ∧ (u = indexUrl ch ∨
      ∃ h, strEndsWith h ".html" = true ∧ h ≠ "index.html" ∧
        u = pkgUrl ch h) := by
  by_cases hst : raisesForStatus (w (indexUrl ch)).status = true
  · rw [fetch_chapter_raise w ch hst] at hm
    simp only [List.mem_singleton, Event.get.injEq] at hm
    exact ⟨hm.2, Or.inl hm.1⟩
  · rw [fetch_chapter_ok w ch (by simpa using hst)] at hm
    rcases List.mem_cons.mp hm with hm | hm
    · rcases hm with ⟨hu, ht⟩
      exact ⟨by simp, Or.inl (by simp)⟩
    · obtain ⟨ht, h₂, hmem, hne, hu⟩ :=
        fetchPages_mem_get w ch _ u t hm
      exact ⟨ht, Or.inr ⟨h₂, chapterHrefs_endsWith _ h₂ hmem, hne, hu⟩⟩

/-- Any GET event in a multi-chapter run belongs to one of the argument
chapters. -/
theorem runChapters_mem_get (w : World) (args : List String)
    (u : String) (t : Nat) (hm : Event.get u t ∈ (runChapters w args).1) :
    t = 30 ∧ ∃ ch ∈ args, u = indexUrl ch ∨
      ∃ h, strEndsWith h ".html" = true ∧ h ≠ "index.html" ∧
        u = pkgUrl ch h := by
  induction args with
  | nil => simp [runChapters] at hm
  | cons ch rest ih =>
    rcases hfc : fetch_chapter w ch with ⟨tr, e⟩
    have htr : Event.get u t ∈ tr →
        t = 30 ∧ (u = indexUrl ch ∨
          ∃ h, strEndsWith h ".html" = true ∧ h ≠ "index.html" ∧
            u = pkgUrl ch h) := by
      intro hmem
      exact fetch_chapter_mem_get w ch u t (by rw [hfc]; exact hmem)
    cases e with
    | some err =>
      simp only [runChapters, hfc] at hm
      obtain ⟨ht, hd⟩ := htr hm
      exact ⟨ht, ch, List.mem_cons_self _ _, hd⟩
    | none =>
      simp only [runChapters, hfc, List.mem_append] at hm
      rcases hm with hm | hm
      · obtain ⟨ht, hd⟩ := htr hm
        exact ⟨ht, ch, List.mem_cons_self _ _, hd⟩
      · obtain ⟨ht, c₂, hmem, hd⟩ := ih hm
        exact ⟨ht, c₂, List.mem_cons_of_mem _ hmem, hd⟩

/-- C6: every HTTP GET the program issues uses the fixed timeout 30 and
targets either `https://www.linuxfromscratch.org/blfs/view/stable/<ch>/`
(a chapter index) or
`https://www.linuxfromscratch.org/blfs/view/stable/<ch>/<h>` for a
qualifying href `h` (ends in `".html"`, not `"index.html"`), where `ch`
is one of the argument chapters. -/
theorem C6_request_targets (w : World) (args : List String)
    (u : String) (t : Nat) (hm : Event.get u t ∈ (main w args).1) :
    t = 30 ∧ ∃ ch ∈ args,
      u = "https://www.linuxfromscratch.org/blfs/view/stable/" ++ ch ++ "/" ∨
      ∃ h, strEndsWith h ".html" = true ∧ h ≠ "index.html" ∧
        u = "https://www.linuxfromscratch.org/blfs/view/stable/" ++ ch ++
          "/" ++ h := by
  cases args with
  | nil =>
    simp only [main, List.mem_singleton] at hm
    exact absurd hm (by simp)
  | cons a rest =>
    have hm' : Event.get u t ∈ (runChapters w (a :: rest)).1 := hm
    obtain ⟨ht, ch, hmem, hd⟩ := runChapters_mem_get w (a :: rest) u t hm'
    refine ⟨ht, ch, hmem, ?_⟩
    have hbase : ∀ s : String,
        BASE_URL ++ "/" ++ s =
          "https://www.linuxfromscratch.org/blfs/view/stable/" ++ s := by
      intro s
      rw [show BASE_URL ++ "/" =
        "https://www.linuxfromscratch.org/blfs/view/stable/" from rfl]
    rcases hd with hd | ⟨h, hhtml, hne, hd⟩
    · left
      rw [hd, indexUrl, hbase]
    · right
      exact ⟨h, hhtml, hne, by rw [hd, pkgUrl, hbase]⟩

/-- C6, instantiated on the index GET of a one-chapter run. -/
theorem C6_request_targets_witness :
    30 = 30 ∧ ∃ ch ∈ ["ch"],
      indexUrl "ch" =
        "https://www.linuxfromscratch.org/blfs/view/stable/" ++ ch ++ "/" ∨
      ∃ h, strEndsWith h ".html" = true ∧ h ≠ "index.html" ∧
        indexUrl "ch" =
          "https://www.linuxfromscratch.org/blfs/view/stable/" ++ ch ++
            "/" ++ h :=
  C6_request_targets exWorld ["ch"] (indexUrl "ch") 30 (by decide)

/-! ### Sequential chapter processing -/

/-- When every chapter run raises nothing, the whole loop's trace is the
concatenation of the per-chapter traces, in argument order. -/
theorem runChapters_all_ok (w : World) (args : List String)
    (hall : ∀ ch ∈ args, (fetch_chapter w ch).2 = none) :
    runChapters w args =
      ((args.map (fun ch => (fetch_chapter w ch).1)).flatten, none) := by
  induction args with
  | nil => rfl
  | cons ch rest ih =>
    rcases hfc : fetch_chapter w ch with ⟨tr, e⟩
    have he : e = none := by
      have := hall ch (List.mem_cons_self _ _)
      rw [hfc] at this
      exact this
    subst he
    simp only [runChapters, hfc,
      ih (fun c hc => hall c (List.mem_cons_of_mem _ hc)),
      List.map_cons, List.flatten_cons]

/-- C7: given at least one chapter identifier with every fetch
succeeding, the program runs `fetch_chapter` once per identifier in
order — the whole trace is the concatenation of the per-chapter traces,
so all of chapter N's output precedes chapter N+1's — and exits with
status 0. -/
theorem C7_sequential_chapters (w : World) (args : List String)
    (hne : args ≠ [])
    (hall : ∀ ch ∈ args, (fetch_chapter w ch).2 = none) :
    main w args =
      ((args.map (fun ch => (fetch_chapter w ch).1)).flatten, 0) := by
  cases args with
  | nil => exact absurd rfl hne
  | cons a rest =>
    simp only [main, runChapters_all_ok w (a :: rest) hall]

/-- C7, instantiated on a two-chapter run over the example network. -/
theorem C7_sequential_chapters_witness :
    (["ch", "ch"] : List String) ≠ [] ∧
    main exWorld ["ch", "ch"] =
      ((["ch", "ch"].map (fun ch => (fetch_chapter exWorld ch).1)).flatten,
        0) :=
  ⟨by decide, C7_sequential_chapters exWorld ["ch", "ch"] (by decide)
    (by decide)⟩

/-! ### Failure propagation -/

/-- With at least one argument, `main` runs the chapter loop and maps its
error to the exit status. -/
theorem main_ne_nil (w : World) (args : List String) (hne : args ≠ []) :
    main w args =
      ((runChapters w args).1,
       match (runChapters w args).2 with | some _ => 1 | none => 0) := by
  cases args with
  | nil => exact absurd rfl hne
  | cons a rest => rfl

/-- An uncaught exception in one chapter ends the loop there: the trace is
the traces of the preceding (successful) chapters followed by the failing
chapter's trace, and the exception propagates. -/
theorem runChapters_pre_err (w : World) (pre : List String) (ch : String)
    (post : List String)
    (hpre : ∀ c ∈ pre, (fetch_chapter w c).2 = none)
    (herr : (fetch_chapter w ch).2.isSome) :
    runChapters w (pre ++ ch :: post) =
      ((runChapters w pre).1 ++ (fetch_chapter w ch).1,
       (fetch_chapter w ch).2) := by
  induction pre with
  | nil =>
    rcases hfc : fetch_chapter w ch with ⟨tr, e⟩
    cases e with
    | none => rw [hfc] at herr; simp at herr
    | some err => simp [runChapters, hfc]
  | cons c pre ih =>
    rcases hc : fetch_chapter w c with ⟨tr, e⟩
    have he : e = none := by
      have := hpre c (List.mem_cons_self _ _)
      rw [hc] at this
      exact this
    subst he
    simp only [List.cons_append, runChapters, hc, List.append_eq,
      ih (fun c₂ hc₂ => hpre c₂ (List.mem_cons_of_mem _ hc₂)),
      List.append_assoc]

/-- A network that answers 500 Internal Server Error on every URL. -/
def w500 : World := fun _ => ⟨500, []⟩

/-- A network that answers 304 Not Modified, with an empty body, on every
URL. -/
def w304 : World := fun _ => ⟨304, []⟩

/-- C4 (amended): a 4xx or 5xx response makes the page fetch raise
`HTTPError`; the exception is caught nowhere, so a chapter whose
processing raises one ends the run right there with exit status 1 —
chapters after it in the argument list are never processed. -/
theorem C4_http_failure_aborts (w : World) (pre : List String)
    (ch : String) (post : List String) (u : String)
    (h4 : 400 ≤ (w u).status) (h6 : (w u).status < 600)
    (hpre : ∀ c ∈ pre, (fetch_chapter w c).2 = none)
    (herr : (fetch_chapter w ch).2.isSome) :
    fetch_package w u = ([.get u 30], some (.httpError (w u).status u)) ∧
    main w (pre ++ ch :: post) =
      ((runChapters w pre).1 ++ (fetch_chapter w ch).1, 1) := by
  have hraise : raisesForStatus (w u).status = true := by
    unfold raisesForStatus
    rw [Bool.and_eq_true, decide_eq_true_eq, decide_eq_true_eq]
    exact ⟨h4, h6⟩
  refine ⟨fetch_package_raise w u hraise, ?_⟩
  have hne : pre ++ ch :: post ≠ [] := by
    cases pre <;> simp
  rw [main_ne_nil w _ hne, runChapters_pre_err w pre ch post hpre herr]
  obtain ⟨e, he⟩ := Option.isSome_iff_exists.mp herr
  rw [he]

/-- C4 as stated is false: a 304 Not Modified index response is not 2xx,
yet `raise_for_status` raises nothing, the run continues into the next
chapter's fetch and exits 0. -/
theorem C4_counterexample :
    (w304 (indexUrl "c1")).status = 304 ∧
    ¬ (200 ≤ (w304 (indexUrl "c1")).status ∧
        (w304 (indexUrl "c1")).status ≤ 299) ∧
    main w304 ["c1", "c2"] =
      ([.get (indexUrl "c1") 30, .get (indexUrl "c2") 30], 0) :=
  ⟨rfl, by decide, by decide⟩

/-- C4 (amended), instantiated: a 500 on every page aborts a two-chapter
run during the first chapter with exit 1. -/
theorem C4_http_failure_aborts_witness :
    400 ≤ (w500 "u").status ∧ (w500 "u").status < 600 ∧
    (fetch_chapter w500 "c1").2.isSome = true ∧
    fetch_package w500 "u" =
      ([.get "u" 30], some (.httpError (w500 "u").status "u")) ∧
    main w500 ["c1", "c2"] =
      ((runChapters w500 []).1 ++ (fetch_chapter w500 "c1").1, 1) :=
  ⟨by decide, by decide, by decide,
    (C4_http_failure_aborts w500 [] "c1" ["c2"] "u" (by decide) (by decide)
      (by decide) (by decide)).1,
    (C4_http_failure_aborts w500 [] "c1" ["c2"] "u" (by decide) (by decide)
      (by decide) (by decide)).2⟩

/-! ### A big-step run relation and its determinism

Each constructor mirrors one control path of the script; the relation
relates a network and the inputs to the observable outcome of a run. -/

/-- Big-step relation for `fetch_package`: one case per control path
(HTTP failure, missing title, success). -/
inductive ExecPackage (w : World) (url : String) :
    List Event × Option Err → Prop where
  | httpErr :
      raisesForStatus (w url).status = true →
      ExecPackage w url
        ([.get url 30], some (.httpError (w url).status url))
  | noTitle :
      raisesForStatus (w url).status = false →
      findH1 (w url).doc = none →
      ExecPackage w url ([.get url 30], some .attributeError)
  | ok (h : Node) :
      raisesForStatus (w url).status = false →
      findH1 (w url).doc = some h →
      ExecPackage w url
        ([.get url 30, .out ("# " ++ Node.getTextStrip h ++ "\n")] ++
          (selectPreUserinput (w url).doc).flatMap
            (fun p => [.out (pyStrip (Node.getText p)), .out ""]),
         none)

/-- Big-step relation for the page loop of `fetch_chapter`. -/
inductive ExecPages (w : World) (ch : String) :
    List String → List Event × Option Err → Prop where
  | nil : ExecPages w ch [] ([], none)
  | skip {rest : List String} {o : List Event × Option Err} :
      ExecPages w ch rest o → ExecPages w ch ("index.html" :: rest) o
  | err {href : String} {rest : List String} {tr : List Event} {e : Err} :
      href ≠ "index.html" →
      ExecPackage w (pkgUrl ch href) (tr, some e) →
      ExecPages w ch (href :: rest) (tr, some e)
  | ok {href : String} {rest : List String} {tr tr' : List Event}
      {e' : Option Err} :
      href ≠ "index.html" →
      ExecPackage w (pkgUrl ch href) (tr, none) →
      ExecPages w ch rest (tr', e') →
      ExecPages w ch (href :: rest) (tr ++ tr', e')

/-- Big-step relation for `fetch_chapter`. -/
inductive ExecChapter (w : World) (ch : String) :
    List Event × Option Err → Prop where
  | httpErr :
      raisesForStatus (w (indexUrl ch)).status = true →
      ExecChapter w ch
        ([.get (indexUrl ch) 30],
         some (.httpError (w (indexUrl ch)).status (indexUrl ch)))
  | ok {tr : List Event} {e : Option Err} :
      raisesForStatus (w (indexUrl ch)).status = false →
      ExecPages w ch (chapterHrefs (w (indexUrl ch)).doc) (tr, e) →
      ExecChapter w ch (.get (indexUrl ch) 30 :: tr, e)

/-- Big-step relation for the entry point's chapter loop. -/
inductive ExecChapters (w : World) :
    List String → List Event × Option Err → Prop where
  | nil : ExecChapters w [] ([], none)
  | err {ch : String} {rest : List String} {tr : List Event} {e : Err} :
      ExecChapter w ch (tr, some e) →
      ExecChapters w (ch :: rest) (tr, some e)
  | ok {ch : String} {rest : List String} {tr tr' : List Event}
      {e' : Option Err} :
      ExecChapter w ch (tr, none) →
      ExecChapters w rest (tr', e') →
      ExecChapters w (ch :: rest) (tr ++ tr', e')

/-- Big-step relation for a whole program run: trace and exit status. -/
inductive ExecMain (w : World) : List String → List Event × Nat → Prop where
  | usage : ExecMain w [] ([.out USAGE], 1)
  | err {args : List String} {tr : List Event} {e : Err} :
      args ≠ [] → ExecChapters w args (tr, some e) →
      ExecMain w args (tr, 1)
  | ok {args : List String} {tr : List Event} :
      args ≠ [] → ExecChapters w args (tr, none) →
      ExecMain w args (tr, 0)

theorem ExecPackage_det (w : World) (url : String)
    (o₁ o₂ : List Event × Option Err)
    (h₁ : ExecPackage w url o₁) (h₂ : ExecPackage w url o₂) : o₁ = o₂ := by
  cases h₁ <;> cases h₂ <;> simp_all

theorem ExecPages_det (w : World) (ch : String) (hs : List String)
    (o₁ o₂ : List Event × Option Err)
    (h₁ : ExecPages w ch hs o₁) (h₂ : ExecPages w ch hs o₂) : o₁ = o₂ := by
  induction h₁ generalizing o₂ with
  | nil => cases h₂; rfl
  | skip h₁' ih =>
    cases h₂ with
    | skip h₂' => exact ih _ h₂'
    | err hne _ => exact absurd rfl hne
    | ok hne _ _ => exact absurd rfl hne
  | err hne hpkg =>
    cases h₂ with
    | skip h₂' => exact absurd rfl hne
    | err hne₂ hpkg₂ =>
      have := ExecPackage_det w _ _ _ hpkg hpkg₂
      simpa using this
    | ok hne₂ hpkg₂ h₂' =>
      have := ExecPackage_det w _ _ _ hpkg hpkg₂
      simp at this
  | ok hne hpkg h₁' ih =>
    cases h₂ with
    | skip h₂' => exact absurd rfl hne
    | err hne₂ hpkg₂ =>
      have := ExecPackage_det w _ _ _ hpkg hpkg₂
      simp at this
    | ok hne₂ hpkg₂ h₂' =>
      have hp := ExecPackage_det w _ _ _ hpkg hpkg₂
      have hr := ih _ h₂'
      simp_all

theorem ExecChapter_det (w : World) (ch : String)
    (o₁ o₂ : List Event × Option Err)
    (h₁ : ExecChapter w ch o₁) (h₂ : ExecChapter w ch o₂) : o₁ = o₂ := by
  cases h₁ with
  | httpErr hst =>
    cases h₂ with
    | httpErr hst₂ => rfl
    | ok hst₂ _ => rw [hst] at hst₂; exact absurd hst₂ (by simp)
  | ok hst hp =>
    cases h₂ with
    | httpErr hst₂ => rw [hst₂] at hst; exact absurd hst (by simp)
    | ok hst₂ hp₂ =>
      have := ExecPages_det w ch _ _ _ hp hp₂
      simp_all

theorem ExecChapters_det (w : World) (args : List String)
    (o₁ o₂ : List Event × Option Err)
    (h₁ : ExecChapters w args o₁) (h₂ : ExecChapters w args o₂) :
    o₁ = o₂ := by
  induction h₁ generalizing o₂ with
  | nil => cases h₂; rfl
  | err hch =>
    cases h₂ with
    | err hch₂ =>
      have := ExecChapter_det w _ _ _ hch hch₂
      simpa using this
    | ok hch₂ h₂' =>
      have := ExecChapter_det w _ _ _ hch hch₂
      simp at this
  | ok hch h₁' ih =>
    cases h₂ with
    | err hch₂ =>
      have := ExecChapter_det w _ _ _ hch hch₂
      simp at this
    | ok hch₂ h₂' =>
      have hc := ExecChapter_det w _ _ _ hch hch₂
      have hr := ih _ h₂'
      simp_all

/-- C10: the program is deterministic — for one network and one argument
list, any two runs have the same event trace, hence byte-identical
standard output, and the same exit status. -/
theorem C10_deterministic (w : World) (args : List String)
    (o₁ o₂ : List Event × Nat)
    (h₁ : ExecMain w args o₁) (h₂ : ExecMain w args o₂) :
    o₁ = o₂ ∧ render o₁.1 = render o₂.1 := by
  have ho : o₁ = o₂ := by
    cases h₁ with
    | usage =>
      cases h₂ with
      | usage => rfl
      | err hne _ => exact absurd rfl hne
      | ok hne _ => exact absurd rfl hne
    | err hne hc =>
      cases h₂ with
      | usage => exact absurd rfl hne
      | err hne₂ hc₂ =>
        have := ExecChapters_det w _ _ _ hc hc₂
        simp_all
      | ok hne₂ hc₂ =>
        have := ExecChapters_det w _ _ _ hc hc₂
        simp at this
    | ok hne hc =>
      cases h₂ with
      | usage => exact absurd rfl hne
      | err hne₂ hc₂ =>
        have := ExecChapters_det w _ _ _ hc hc₂
        simp at this
      | ok hne₂ hc₂ =>
        have := ExecChapters_det w _ _ _ hc hc₂
        simp_all
  exact ⟨ho, by rw [ho]⟩

/-! ### The functional embedding realizes the run relation -/

theorem ExecPackage_main (w : World) (url : String) :
    ExecPackage w url (fetch_package w url) := by
  by_cases hst : raisesForStatus (w url).status = true
  · rw [fetch_package_raise w url hst]
    exact .httpErr hst
  · have hst' : raisesForStatus (w url).status = false := by simpa using hst
    cases hh : findH1 (w url).doc with
    | none =>
      rw [fetch_package_noH1 w url hst' hh]
      exact .noTitle hst' hh
    | some h =>
      rw [fetch_package_ok w url h hst' hh]
      exact .ok h hst' hh

theorem ExecPages_main (w : World) (ch : String) (hs : List String) :
    ExecPages w ch hs (fetchPages w ch hs) := by
  induction hs with
  | nil => exact .nil
  | cons href rest ih =>
    by_cases hidx : href = "index.html"
    · subst hidx
      simp only [fetchPages, if_pos rfl]
      exact .skip ih
    · rcases hfp : fetch_package w (pkgUrl ch href) with ⟨tr, e⟩
      have hpkg : ExecPackage w (pkgUrl ch href) (tr, e) := by
        rw [← hfp]
        exact ExecPackage_main w (pkgUrl ch href)
      cases e with
      | some err =>
        simp only [fetchPages, if_neg hidx, hfp]
        exact .err hidx hpkg
      | none =>
        simp only [fetchPages, if_neg hidx, hfp]
        exact .ok hidx hpkg ih

theorem ExecChapter_main (w : World) (ch : String) :
    ExecChapter w ch (fetch_chapter w ch) := by
  by_cases hst : raisesForStatus (w (indexUrl ch)).status = true
  · rw [fetch_chapter_raise w ch hst]
    exact .httpErr hst
  · have hst' : raisesForStatus (w (indexUrl ch)).status = false := by
      simpa using hst
    rw [fetch_chapter_ok w ch hst']
    exact .ok hst' (ExecPages_main w ch _)

theorem ExecChapters_main (w : World) (args : List String) :
    ExecChapters w args (runChapters w args) := by
  induction args with
  | nil => exact .nil
  | cons ch rest ih =>
    rcases hfc : fetch_chapter w ch with ⟨tr, e⟩
    have hch : ExecChapter w ch (tr, e) := by
      rw [← hfc]
      exact ExecChapter_main w ch
    cases e with
    | some err =>
      simp only [runChapters, hfc]
      exact .err hch
    | none =>
      simp only [runChapters, hfc]
      exact .ok hch ih

theorem ExecMain_main (w : World) (args : List String) :
    ExecMain w args (main w args) := by
  cases hargs : args with
  | nil => exact .usage
  | cons a rest =>
    rcases hrc : runChapters w (a :: rest) with ⟨tr, e⟩
    have hch : ExecChapters w (a :: rest) (tr, e) := by
      rw [← hrc]
      exact ExecChapters_main w (a :: rest)
    cases e with
    | some err =>
      have : main w (a :: rest) = (tr, 1) := by
        rw [main_ne_nil w (a :: rest) (by simp), hrc]
      rw [this]
      exact .err (by simp) hch
    | none =>
      have : main w (a :: rest) = (tr, 0) := by
        rw [main_ne_nil w (a :: rest) (by simp), hrc]
      rw [this]
      exact .ok (by simp) hch

/-- C10, instantiated: two runs over the example network with one chapter
argument agree. -/
theorem C10_deterministic_witness :
    main exWorld ["ch"] = main exWorld ["ch"] ∧
    render (main exWorld ["ch"]).1 = render (main exWorld ["ch"]).1 :=
  C10_deterministic exWorld ["ch"] (main exWorld ["ch"])
    (main exWorld ["ch"]) (ExecMain_main exWorld ["ch"])
    (ExecMain_main exWorld ["ch"])

end BlfsFetch

